import Mathlib

/-!
Shallow embedding of the spatial indexing / line-extension geometry toolkit of
`src/arcsupport.py` (class `GeomTools`), together with theorems settling the
specification claims about it.

Modelling conventions used throughout:
* Python floats are modelled as exact rationals (`ℚ`) for the algebraic and
  combinatorial routines, and as real numbers (`ℝ`) for the trigonometric
  routines (`getAzimuth`, `extendLineAlongAzimuth`).
* Python's `None`/`False` failure sentinels are modelled by `Option.none`.
* `math.sqrt` only ever occurs in the source under a comparison of two
  non-negative quantities (distances); those comparisons are modelled exactly
  by the corresponding comparisons of squared quantities (squaring is a
  strictly monotone bijection on the non-negative reals, so e.g.
  `sqrt d < sqrt e ↔ d < e` and, for `0 ≤ m`, `sqrt d < m ↔ d < m ^ 2`).
-/

/-! ### `GeomTools.intersectLines` (src/arcsupport.py lines 1482-1508)

The source computes, for segments `(x1,y1)-(x2,y2)` and `(x3,y3)-(x4,y4)`,
the implicit line equations `A1*x + B1*y = C1`, `A2*x + B2*y = C2` with
`A1 = y2 - y1`, `B1 = x1 - x2`, `C1 = A1*x1 + B1*y1` (likewise for the second
segment), the determinant `det = A1*B2 - A2*B1`, and on `det ≠ 0` the solution
`x = (B2*C1 - B1*C2)/det`, `y = (A1*C2 - A2*C1)/det`, which is returned only
when it lies strictly inside both segments' axis-aligned bounding boxes. -/

/-- The determinant `A1*B2 - A2*B1` of the 2×2 system built from the two
segments, exactly as in `intersectLines`. A segment is a 4-tuple
`(x1, y1, x2, y2)` of its endpoint coordinates, as in the source. -/
def detOf : (ℚ × ℚ × ℚ × ℚ) → (ℚ × ℚ × ℚ × ℚ) → ℚ
  | (x1, y1, x2, y2), (x3, y3, x4, y4) =>
    (y2 - y1) * (x3 - x4) - (y4 - y3) * (x1 - x2)

/-- The solution `(x, y)` of the 2×2 system computed in the `det ≠ 0` branch of
`intersectLines`: `x = (B2*C1 - B1*C2)/det`, `y = (A1*C2 - A2*C1)/det`. -/
def lineSolution : (ℚ × ℚ × ℚ × ℚ) → (ℚ × ℚ × ℚ × ℚ) → ℚ × ℚ
  | (x1, y1, x2, y2), (x3, y3, x4, y4) =>
    let A1 := y2 - y1
    let B1 := x1 - x2
    let C1 := A1 * x1 + B1 * y1
    let A2 := y4 - y3
    let B2 := x3 - x4
    let C2 := A2 * x3 + B2 * y3
    let det := A1 * B2 - A2 * B1
    ((B2 * C1 - B1 * C2) / det, (A1 * C2 - A2 * C1) / det)

/-- The strict bounding-box test of `intersectLines`:
`min(x1,x2) < x < max(x1,x2) and min(x3,x4) < x < max(x3,x4) and
 min(y1,y2) < y < max(y1,y2) and min(y3,y4) < y < max(y3,y4)`. -/
def strictBBox (seg1 seg2 : ℚ × ℚ × ℚ × ℚ) (p : ℚ × ℚ) : Prop :=
  min seg1.1 seg1.2.2.1 < p.1 ∧ p.1 < max seg1.1 seg1.2.2.1 ∧
  min seg2.1 seg2.2.2.1 < p.1 ∧ p.1 < max seg2.1 seg2.2.2.1 ∧
  min seg1.2.1 seg1.2.2.2 < p.2 ∧ p.2 < max seg1.2.1 seg1.2.2.2 ∧
  min seg2.2.1 seg2.2.2.2 < p.2 ∧ p.2 < max seg2.2.1 seg2.2.2.2

instance (seg1 seg2 : ℚ × ℚ × ℚ × ℚ) (p : ℚ × ℚ) : Decidable (strictBBox seg1 seg2 p) := by
  unfold strictBBox; infer_instance

/-- `GeomTools.intersectLines`: returns `None` when the determinant vanishes,
and otherwise returns the solution of the 2×2 system iff it passes the strict
bounding-box test. -/
def intersectLines (seg1 seg2 : ℚ × ℚ × ℚ × ℚ) : Option (ℚ × ℚ) :=
  if detOf seg1 seg2 = 0 then none
  else
    let p := lineSolution seg1 seg2
    if strictBBox seg1 seg2 p then some p else none

/-- The point of segment `(x1, y1, x2, y2)` at parameter `t ∈ [0, 1]`
(`t = 0` is the first endpoint, `t = 1` the second). -/
def segPoint : (ℚ × ℚ × ℚ × ℚ) → ℚ → ℚ × ℚ
  | (x1, y1, x2, y2), t => (x1 + t * (x2 - x1), y1 + t * (y2 - y1))

/-- Modelled from the spec's words: two segments "cross strictly inside both
segments" iff a common point is attained at a strictly interior parameter of
each segment. Used only to state claims, never by the embedded code. -/
def strictlyCrosses (seg1 seg2 : ℚ × ℚ × ℚ × ℚ) : Prop :=
  ∃ t s : ℚ, 0 < t ∧ t < 1 ∧ 0 < s ∧ s < 1 ∧ segPoint seg1 t = segPoint seg2 s

/-- Claim C1 counterexample: the two axis-aligned segments `(0,-1)-(0,1)` and
`(-1,0)-(1,0)` cross strictly inside both segments (at `(0,0)`, parameter `1/2`
on each) and are not parallel, yet `intersectLines` returns `None`, because the
crossing point is not strictly between the endpoints in each separate
coordinate (the strict bounding-box test degenerates for axis-parallel
segments). -/
theorem intersectLines_counterexample :
    strictlyCrosses (0, -1, 0, 1) (-1, 0, 1, 0) ∧
    detOf (0, -1, 0, 1) (-1, 0, 1, 0) ≠ 0 ∧
    intersectLines (0, -1, 0, 1) (-1, 0, 1, 0) = none :=
  ⟨⟨1/2, 1/2, by norm_num, by norm_num, by norm_num, by norm_num, by norm_num [segPoint]⟩,
   by norm_num [detOf],
   by norm_num [intersectLines, detOf, lineSolution, strictBBox]⟩

/-- Claim C1 (amended): for segment pairs that are not parallel
(`det ≠ 0`) and whose crossing point lies strictly inside both segments'
axis-aligned bounding boxes (strictly between the endpoints in both
coordinates), `intersectLines` returns exactly the analytic crossing point;
it returns `None` whenever the determinant of the 2×2 system is zero, and
whenever the computed solution fails the strict bounding-box test — so
touching endpoints are never reported.  (The amendment relative to the claim:
"cross strictly inside both segments" must be strengthened to "crossing point
strictly inside both bounding boxes", since e.g. axis-aligned segments that
cross strictly in their interiors are rejected by the strict test, see
`intersectLines_counterexample`.) -/
theorem intersectLines_spec :
    (∀ x1 y1 x2 y2 x3 y3 x4 y4 t s : ℚ,
        0 < t → t < 1 → 0 < s → s < 1 →
        segPoint (x1, y1, x2, y2) t = segPoint (x3, y3, x4, y4) s →
        detOf (x1, y1, x2, y2) (x3, y3, x4, y4) ≠ 0 →
        strictBBox (x1, y1, x2, y2) (x3, y3, x4, y4) (segPoint (x1, y1, x2, y2) t) →
        intersectLines (x1, y1, x2, y2) (x3, y3, x4, y4)
          = some (segPoint (x1, y1, x2, y2) t)) ∧
    (∀ seg1 seg2 : ℚ × ℚ × ℚ × ℚ, detOf seg1 seg2 = 0 → intersectLines seg1 seg2 = none) ∧
    (∀ seg1 seg2 : ℚ × ℚ × ℚ × ℚ, detOf seg1 seg2 ≠ 0 →
        ¬ strictBBox seg1 seg2 (lineSolution seg1 seg2) → intersectLines seg1 seg2 = none) := by
  refine ⟨?_, ?_, ?_⟩
  · intro x1 y1 x2 y2 x3 y3 x4 y4 t s ht0 ht1 hs0 hs1 hcross hdet hbb
    have hdet' : (y2 - y1) * (x3 - x4) - (y4 - y3) * (x1 - x2) ≠ 0 := by
      simpa [detOf] using hdet
    obtain ⟨e1, e2⟩ : (x1 + t * (x2 - x1) = x3 + s * (x4 - x3)) ∧
        (y1 + t * (y2 - y1) = y3 + s * (y4 - y3)) := by
      simpa [segPoint, Prod.ext_iff] using hcross
    have h1 : (y2 - y1) * (x1 + t * (x2 - x1)) + (x1 - x2) * (y1 + t * (y2 - y1))
        = (y2 - y1) * x1 + (x1 - x2) * y1 := by ring
    have h2 : (y4 - y3) * (x1 + t * (x2 - x1)) + (x3 - x4) * (y1 + t * (y2 - y1))
        = (y4 - y3) * x3 + (x3 - x4) * y3 := by
      rw [e1, e2]; ring
    have hsolx : ((x3 - x4) * ((y2 - y1) * x1 + (x1 - x2) * y1)
          - (x1 - x2) * ((y4 - y3) * x3 + (x3 - x4) * y3))
          / ((y2 - y1) * (x3 - x4) - (y4 - y3) * (x1 - x2)) = x1 + t * (x2 - x1) := by
      rw [div_eq_iff hdet']
      linear_combination (x1 - x2) * h2 - (x3 - x4) * h1
    have hsoly : ((y2 - y1) * ((y4 - y3) * x3 + (x3 - x4) * y3)
          - (y4 - y3) * ((y2 - y1) * x1 + (x1 - x2) * y1))
          / ((y2 - y1) * (x3 - x4) - (y4 - y3) * (x1 - x2)) = y1 + t * (y2 - y1) := by
      rw [div_eq_iff hdet']
      linear_combination (y4 - y3) * h1 - (y2 - y1) * h2
    have hsol : lineSolution (x1, y1, x2, y2) (x3, y3, x4, y4)
        = segPoint (x1, y1, x2, y2) t := by
      simp only [lineSolution, segPoint, Prod.mk.injEq]
      exact ⟨hsolx, hsoly⟩
    unfold intersectLines
    rw [if_neg hdet]
    simp only [hsol]
    rw [if_pos hbb]
  · intro seg1 seg2 h
    unfold intersectLines
    rw [if_pos h]
  · intro seg1 seg2 hdet hnb
    unfold intersectLines
    rw [if_neg hdet]
    exact if_neg hnb

/-- Witness for `intersectLines_spec` at concrete inputs: the diagonals of the
square `[0,2]²` cross at `(1,1)` and it is returned; a pair of horizontal
parallel segments returns `None`; and a pair whose line crossing `(3/2,3/2)`
falls outside the first segment returns `None`. -/
theorem intersectLines_spec_witness :
    intersectLines (0, 0, 2, 2) (0, 2, 2, 0) = some (segPoint (0, 0, 2, 2) (1/2)) ∧
    intersectLines (0, 0, 1, 0) (0, 1, 1, 1) = none ∧
    intersectLines (0, 0, 1, 1) (3, 0, 0, 3) = none :=
  ⟨intersectLines_spec.1 0 0 2 2 0 2 2 0 (1/2) (1/2) (by norm_num) (by norm_num)
      (by norm_num) (by norm_num) (by norm_num [segPoint]) (by norm_num [detOf])
      (by norm_num [strictBBox, segPoint]),
   intersectLines_spec.2.1 _ _ (by norm_num [detOf]),
   intersectLines_spec.2.2 _ _ (by norm_num [detOf]) (by norm_num [strictBBox, lineSolution])⟩

/-! ### `GeomTools.spatialKey` / `GeomTools.buildSpatialIndex`
(src/arcsupport.py lines 1510-1550)

`spatialKey` computes `round_factor = -int(math.log10(abs(grid_size)))` and
rounds each coordinate with Python's `round(x, round_factor)` (round to
`round_factor` decimal digits, ties to even); the key is the string
`'%s:%s' % (x_key, y_key)`.  Since that string rendering is injective on
numeric values we model a key as the pair of the two rounded values. -/

/-- Truncation toward zero of `log10 q` for positive `q`, modelling Python's
`int(math.log10(q))`: the floor of the logarithm (`Int.log`) for `q ≥ 1` and
its ceiling (`Int.clog`) for `q < 1` (negative logarithms truncate upward). -/
def truncLog10 (q : ℚ) : ℤ := if 1 ≤ q then Int.log 10 q else Int.clog 10 q

/-- Round-half-to-even to an integer, modelling Python 3's builtin `round`. -/
def roundHalfEven (q : ℚ) : ℤ :=
  if q - ⌊q⌋ < 1 / 2 then ⌊q⌋
  else if 1 / 2 < q - ⌊q⌋ then ⌊q⌋ + 1
  else if 2 ∣ ⌊q⌋ then ⌊q⌋ else ⌊q⌋ + 1

/-- Python's `round(x, n)`: round to `n` decimal digits, ties to even. -/
def roundTo (x : ℚ) (n : ℤ) : ℚ := (roundHalfEven (x * 10 ^ n) : ℚ) / 10 ^ n

/-- Truncation toward zero, modelling Python's `int(...)` on a number. -/
def truncQ (q : ℚ) : ℤ := if 0 ≤ q then ⌊q⌋ else ⌈q⌉

/-- `GeomTools.spatialKey`: the grid key of coordinate `(x, y)`, a pure
function of the coordinates and the grid size. -/
def spatialKey (x y grid_size : ℚ) (invert : Bool) : ℚ × ℚ :=
  let round_factor : ℤ := -truncLog10 |grid_size|
  if invert then
    ((truncQ (roundTo x round_factor / grid_size) : ℚ),
     (truncQ (roundTo y round_factor / grid_size) : ℚ))
  else (roundTo x round_factor, roundTo y round_factor)

/-- `GeomTools.spatialKeyFromPoint` (src/arcsupport.py lines 1530-1533). -/
def spatialKeyFromPoint (p : ℚ × ℚ) (grid_size : ℚ) : ℚ × ℚ :=
  spatialKey p.1 p.2 grid_size false

/-- The index built by `buildSpatialIndex`: Python's `dict` from key to `set`
of point indices, modelled as an association list of buckets (each bucket a
duplicate-free list). -/
abbrev SpatialIdx := List ((ℚ × ℚ) × List ℕ)

/-- One `idx[key].add(i)` step of `buildSpatialIndex` (creating the bucket
when the key is absent, as the source's `if key not in idx` branch does). -/
def insertIdx : SpatialIdx → (ℚ × ℚ) → ℕ → SpatialIdx
  | [], key, i => [(key, [i])]
  | (k, b) :: rest, key, i =>
    if k = key then (k, if i ∈ b then b else b ++ [i]) :: rest
    else (k, b) :: insertIdx rest key i

/-- The `for i in range(0, len(arr))` loop of `buildSpatialIndex`, iterating
over the points paired with their indices. -/
def buildIdxLoop (grid_scale : ℚ) : List (ℕ × (ℚ × ℚ)) → SpatialIdx → SpatialIdx
  | [], idx => idx
  | (i, p) :: rest, idx =>
    buildIdxLoop grid_scale rest (insertIdx idx (spatialKeyFromPoint p grid_scale) i)

/-- `GeomTools.buildSpatialIndex`: returns the failure sentinel (`False`,
modelled as `none`) when `density` is not one of `'ALL'`, `'ENDS'`; otherwise
indexes every point of the (single-part) geometry under its spatial key. -/
def buildSpatialIndex (pts : List (ℚ × ℚ)) (grid_scale : ℚ) (density : String) :
    Option SpatialIdx :=
  if density = "ALL" ∨ density = "ENDS" then some (buildIdxLoop grid_scale pts.enum [])
  else none

/-- Bucket lookup: Python's `idx[key]`, with `[]` for an absent key. -/
def lookupIdx : SpatialIdx → (ℚ × ℚ) → List ℕ
  | [], _ => []
  | (k, b) :: rest, key => if k = key then b else lookupIdx rest key

/-- Total number of indexed point entries (sum of all bucket sizes). -/
def totalEntries (idx : SpatialIdx) : ℕ := (idx.map (fun kb => kb.2.length)).sum

/-- All indices stored in the index are below `n`: the loop invariant making
every newly inserted index fresh. -/
def idxBelow (idx : SpatialIdx) (n : ℕ) : Prop := ∀ kb ∈ idx, ∀ j ∈ kb.2, j < n

theorem mem_lookupIdx_insertIdx_self (idx : SpatialIdx) (key : ℚ × ℚ) (i : ℕ) :
    i ∈ lookupIdx (insertIdx idx key i) key := by
  induction idx with
  | nil => simp [insertIdx, lookupIdx]
  | cons kb rest ih =>
    obtain ⟨k, b⟩ := kb
    by_cases h : k = key
    · subst h
      simp only [insertIdx, if_pos rfl, lookupIdx]
      by_cases hib : i ∈ b <;> simp [hib]
    · simp [insertIdx, h, lookupIdx, ih]

theorem mem_lookupIdx_insertIdx_mono (idx : SpatialIdx) (key k' : ℚ × ℚ) (i j : ℕ)
    (h : j ∈ lookupIdx idx k') : j ∈ lookupIdx (insertIdx idx key i) k' := by
  induction idx with
  | nil => simp [lookupIdx] at h
  | cons kb rest ih =>
    obtain ⟨k, b⟩ := kb
    by_cases hk : k = key
    · subst hk
      simp only [insertIdx, if_pos rfl, lookupIdx] at h ⊢
      by_cases hk' : k = k'
      · rw [if_pos hk'] at h ⊢
        by_cases hib : i ∈ b <;> simp [hib, h]
      · rwa [if_neg hk'] at h ⊢
    · simp only [insertIdx, if_neg hk, lookupIdx] at h ⊢
      by_cases hk' : k = k'
      · rwa [if_pos hk'] at h ⊢
      · rw [if_neg hk'] at h ⊢
        exact ih h

theorem totalEntries_insertIdx_fresh (idx : SpatialIdx) (key : ℚ × ℚ) (i : ℕ)
    (h : ∀ kb ∈ idx, i ∉ kb.2) :
    totalEntries (insertIdx idx key i) = totalEntries idx + 1 := by
  induction idx with
  | nil => simp [insertIdx, totalEntries]
  | cons kb rest ih =>
    obtain ⟨k, b⟩ := kb
    by_cases hk : k = key
    · subst hk
      have hib : i ∉ b := h (k, b) (by simp)
      simp [insertIdx, totalEntries, hib]
      omega
    · have hrest : ∀ kb ∈ rest, i ∉ kb.2 := fun kb hkb => h kb (by simp [hkb])
      have ih' := ih hrest
      simp [insertIdx, hk, totalEntries] at ih' ⊢
      omega

theorem idxBelow_insertIdx (idx : SpatialIdx) (key : ℚ × ℚ) (n : ℕ)
    (h : idxBelow idx n) : idxBelow (insertIdx idx key n) (n + 1) := by
  induction idx with
  | nil =>
    intro kb hkb j hj
    simp [insertIdx] at hkb
    subst hkb
    simp at hj
    omega
  | cons kb₀ rest ih =>
    obtain ⟨k, b⟩ := kb₀
    have hhead : ∀ j ∈ b, j < n := h (k, b) (by simp)
    have htail : idxBelow rest n := fun kb hkb => h kb (by simp [hkb])
    by_cases hk : k = key
    · subst hk
      intro kb hkb j hj
      simp only [insertIdx, if_pos rfl] at hkb
      rcases List.mem_cons.mp hkb with heq | hmem
      · subst heq
        by_cases hib : n ∈ b <;> simp [hib] at hj
        · exact Nat.lt_succ_of_lt (hhead j hj)
        · rcases hj with hj | hj
          · exact Nat.lt_succ_of_lt (hhead j hj)
          · omega
      · exact Nat.lt_succ_of_lt (htail kb hmem j hj)
    · intro kb hkb j hj
      simp only [insertIdx, if_neg hk] at hkb
      rcases List.mem_cons.mp hkb with heq | hmem
      · subst heq
        exact Nat.lt_succ_of_lt (hhead j hj)
      · exact ih htail kb hmem j hj

theorem buildIdxLoop_spec (g : ℚ) (pts : List (ℚ × ℚ)) :
    ∀ (n : ℕ) (idx : SpatialIdx), idxBelow idx n →
      totalEntries (buildIdxLoop g (List.enumFrom n pts) idx) = totalEntries idx + pts.length ∧
      (∀ key j, j ∈ lookupIdx idx key →
        j ∈ lookupIdx (buildIdxLoop g (List.enumFrom n pts) idx) key) ∧
      (∀ pr ∈ List.enumFrom n pts,
        pr.1 ∈ lookupIdx (buildIdxLoop g (List.enumFrom n pts) idx)
          (spatialKeyFromPoint pr.2 g)) ∧
      idxBelow (buildIdxLoop g (List.enumFrom n pts) idx) (n + pts.length) := by
  induction pts with
  | nil =>
    intro n idx h
    exact ⟨by simp [buildIdxLoop, List.enumFrom], fun key j hj => hj, by simp [List.enumFrom],
      by simpa using h⟩
  | cons p rest ih =>
    intro n idx h
    have hstep : List.enumFrom n (p :: rest) = (n, p) :: List.enumFrom (n + 1) rest := rfl
    rw [hstep]
    have hloop : buildIdxLoop g ((n, p) :: List.enumFrom (n + 1) rest) idx
        = buildIdxLoop g (List.enumFrom (n + 1) rest)
            (insertIdx idx (spatialKeyFromPoint p g) n) := rfl
    rw [hloop]
    have hfresh : ∀ kb ∈ idx, n ∉ kb.2 := fun kb hkb hn => lt_irrefl n (h kb hkb n hn)
    have hb' : idxBelow (insertIdx idx (spatialKeyFromPoint p g) n) (n + 1) :=
      idxBelow_insertIdx idx _ n h
    obtain ⟨iht, ihm, ihmem, ihb⟩ := ih (n + 1) (insertIdx idx (spatialKeyFromPoint p g) n) hb'
    refine ⟨?_, ?_, ?_, ?_⟩
    · rw [iht, totalEntries_insertIdx_fresh idx _ n hfresh]
      simp
      omega
    · intro key j hj
      exact ihm key j (mem_lookupIdx_insertIdx_mono idx _ key n j hj)
    · intro pr hpr
      rcases List.mem_cons.mp hpr with heq | hmem
      · subst heq
        exact ihm _ n (mem_lookupIdx_insertIdx_self idx _ n)
      · exact ihmem pr hmem
    · have hlen : n + 1 + rest.length = n + (p :: rest).length := by simp; omega
      rw [← hlen]
      exact ihb

/-- Claim C2: with a valid density flag, `buildSpatialIndex` indexes every
point: the index of each input point is a member of the bucket stored under
the key computed (purely) from that point's coordinates and the grid scale —
in particular for a single point `p` the lookup of `keyOf(p, g)` in
`buildIndex([p], g)` yields `p`'s index — and the total number of indexed
point entries equals the input point count. -/
theorem buildSpatialIndex_indexes_all (pts : List (ℚ × ℚ)) (grid_scale : ℚ) (density : String)
    (hd : density = "ALL" ∨ density = "ENDS") :
    ∃ idx, buildSpatialIndex pts grid_scale density = some idx ∧
      (∀ pr ∈ pts.enum, pr.1 ∈ lookupIdx idx (spatialKeyFromPoint pr.2 grid_scale)) ∧
      totalEntries idx = pts.length := by
  have h0 : idxBelow ([] : SpatialIdx) 0 := by intro kb hkb; simp at hkb
  obtain ⟨ht, _, hmem, _⟩ := buildIdxLoop_spec grid_scale pts 0 [] h0
  have henum : pts.enum = List.enumFrom 0 pts := rfl
  refine ⟨buildIdxLoop grid_scale pts.enum [], ?_, ?_, ?_⟩
  · simp [buildSpatialIndex, if_pos hd]
  · rw [henum]
    exact hmem
  · rw [henum, ht]
    simp [totalEntries]

/-- Witness for `buildSpatialIndex_indexes_all`: a single point `(7/2, 5)`
indexed with grid scale `100` and density `'ALL'`. -/
theorem buildSpatialIndex_indexes_all_witness :
    ∃ idx, buildSpatialIndex [((7 : ℚ)/2, 5)] 100 "ALL" = some idx ∧
      (∀ pr ∈ ([((7 : ℚ)/2, 5)] : List (ℚ × ℚ)).enum,
        pr.1 ∈ lookupIdx idx (spatialKeyFromPoint pr.2 100)) ∧
      totalEntries idx = ([((7 : ℚ)/2, 5)] : List (ℚ × ℚ)).length :=
  buildSpatialIndex_indexes_all [((7 : ℚ)/2, 5)] 100 "ALL" (Or.inl rfl)

/-- Claim C10: `buildSpatialIndex` returns the failure sentinel (`False`,
modelled `none`) exactly when `density` is not one of `'ALL'`, `'ENDS'`
(validation is its only failure branch, and as a pure function it mutates no
state), and with a valid density it returns a key-to-bucket mapping. -/
theorem buildSpatialIndex_density_validation (pts : List (ℚ × ℚ)) (grid_scale : ℚ)
    (density : String) :
    (buildSpatialIndex pts grid_scale density = none
      ↔ ¬(density = "ALL" ∨ density = "ENDS")) ∧
    ((∃ idx, buildSpatialIndex pts grid_scale density = some idx)
      ↔ (density = "ALL" ∨ density = "ENDS")) := by
  unfold buildSpatialIndex
  by_cases h : density = "ALL" ∨ density = "ENDS" <;> simp [h]

/-- Witness for `buildSpatialIndex_density_validation`: density `'NEITHER'`
is rejected with the sentinel, density `'ENDS'` yields an index. -/
theorem buildSpatialIndex_density_validation_witness :
    buildSpatialIndex [] 100 "NEITHER" = none ∧
    ∃ idx, buildSpatialIndex [] 100 "ENDS" = some idx :=
  ⟨(buildSpatialIndex_density_validation [] 100 "NEITHER").1.mpr (by simp),
   (buildSpatialIndex_density_validation [] 100 "ENDS").2.mpr (Or.inr rfl)⟩

/-! ### `GeomTools.makeNearbyKeys` (src/arcsupport.py lines 1552-1594) -/

/-- One direction of the increment-generating `while` loop of
`makeNearbyKeys`: repeatedly `current += dir * grid_size`,
`delta = fabs(current - center)`, collect `current`, while `delta < maxDelta`
(checked before each pass, so the first value reaching `maxDelta` is still
collected).  The recursion is structural on a fuel argument; for
`grid_size ≠ 0` each pass grows `delta` by `|grid_size|`, so the source loop
performs at most `⌈maxDelta / |grid_size|⌉` passes and any fuel of at least
that size reproduces the source loop's output exactly (for `grid_size = 0`
the source loop does not terminate). -/
def nearbyLoop (center grid_size maxDelta dir : ℚ) : ℕ → ℚ → ℚ → List ℚ
  | 0, _, _ => []
  | fuel + 1, current, delta =>
    if delta < maxDelta then
      (current + dir * grid_size) ::
        nearbyLoop center grid_size maxDelta dir fuel (current + dir * grid_size)
          |current + dir * grid_size - center|
    else []

/-- `GeomTools.makeNearbyKeys`: the latitude/longitude increment sets (the
query coordinate itself, added before each loop, plus the two loop outputs for
`i ∈ {-1, 1}`), their Cartesian product, the filter retaining pairs whose
Euclidean offset from the query point is below `min_delta`, and the image
under `spatialKey(lonnew, latnew, grid_size)`.  The source's comparison
`math.sqrt(dlat*dlat + dlon*dlon) < min_delta` is modelled exactly by
`0 < min_delta ∧ dlat² + dlon² < min_delta²` (equivalent over the reals since
the radicand is non-negative). -/
def makeNearbyKeys (lat lon max_lat_delta max_lon_delta grid_size min_delta : ℚ) :
    Finset (ℚ × ℚ) :=
  let fuelLat := ⌈max_lat_delta / |grid_size|⌉₊ + 1
  let fuelLon := ⌈max_lon_delta / |grid_size|⌉₊ + 1
  let latIncs : Finset ℚ :=
    insert lat
      ((nearbyLoop lat grid_size max_lat_delta (-1) fuelLat lat 0).toFinset ∪
       (nearbyLoop lat grid_size max_lat_delta 1 fuelLat lat 0).toFinset)
  let lonIncs : Finset ℚ :=
    insert lon
      ((nearbyLoop lon grid_size max_lon_delta (-1) fuelLon lon 0).toFinset ∪
       (nearbyLoop lon grid_size max_lon_delta 1 fuelLon lon 0).toFinset)
  ((latIncs ×ˢ lonIncs).filter
      (fun pr => 0 < min_delta ∧ |pr.1 - lat| ^ 2 + |pr.2 - lon| ^ 2 < min_delta ^ 2)).image
    (fun pr => spatialKey pr.2 pr.1 grid_size false)

/-- Claim C3: for every query coordinate and every positive `min_delta`, the
key set returned by `makeNearbyKeys` contains the key of the query point's own
cell (the zero offset is always in the candidate set), and every key in the
returned set comes from a candidate coordinate whose Euclidean offset from the
query point is strictly less than `min_delta` — so (instantiating at
`(49, -123, 0.02, 0.03, 0.01, 0.013)`) the scenario key set includes the key
for `(49, -123)` and excludes every coordinate pair whose offset exceeds
`0.013`. -/
theorem makeNearbyKeys_spec (lat lon max_lat_delta max_lon_delta grid_size min_delta : ℚ)
    (h : 0 < min_delta) :
    spatialKey lon lat grid_size false
      ∈ makeNearbyKeys lat lon max_lat_delta max_lon_delta grid_size min_delta ∧
    ∀ key ∈ makeNearbyKeys lat lon max_lat_delta max_lon_delta grid_size min_delta,
      ∃ latn lonn : ℚ, |latn - lat| ^ 2 + |lonn - lon| ^ 2 < min_delta ^ 2 ∧
        key = spatialKey lonn latn grid_size false := by
  unfold makeNearbyKeys
  constructor
  · refine Finset.mem_image.mpr ⟨(lat, lon), ?_, rfl⟩
    refine Finset.mem_filter.mpr ⟨?_, h, ?_⟩
    · exact Finset.mem_product.mpr ⟨Finset.mem_insert_self _ _, Finset.mem_insert_self _ _⟩
    · simpa using (by positivity : (0 : ℚ) < min_delta ^ 2)
  · intro key hkey
    obtain ⟨pr, hpr, rfl⟩ := Finset.mem_image.mp hkey
    obtain ⟨-, hcond⟩ := Finset.mem_filter.mp hpr
    exact ⟨pr.1, pr.2, hcond.2, rfl⟩

/-- Witness for `makeNearbyKeys_spec`: the spec's concrete scenario
`makeNearbyKeys(49.0, -123.0, 0.02, 0.03, 0.01, 0.013)`. -/
theorem makeNearbyKeys_spec_witness :
    spatialKey (-123) 49 (1/100) false
      ∈ makeNearbyKeys 49 (-123) (1/50) (3/100) (1/100) (13/1000) ∧
    ∀ key ∈ makeNearbyKeys 49 (-123) (1/50) (3/100) (1/100) (13/1000),
      ∃ latn lonn : ℚ, |latn - 49| ^ 2 + |lonn - (-123)| ^ 2 < (13/1000) ^ 2 ∧
        key = spatialKey lonn latn (1/100) false :=
  makeNearbyKeys_spec 49 (-123) (1/50) (3/100) (1/100) (13/1000) (by norm_num)

/-! ### `GeomTools.extendLinesToIntersect` (src/arcsupport.py lines 1653-1745)

The function copies the input lines, extends each by `maxDistance` along its
azimuth (first `UpdateCursor` loop), intersects the extended lines with the
boundary feature class (vendor `Intersect_analysis`, whose per-line output
points we take as an input of the model), and then, per line, picks the
intersection closest to the extended line's first point and rewrites the line
(third `UpdateCursor` loop).  We embed that selection/rewrite loop: the vendor
distance comparisons `firstPointGeom.distanceTo(inter) < minDistance` are
modelled by the equivalent comparisons of squared Euclidean distances, and the
extended line's length `geom.length` (irrational in general) is passed in as
the parameter `extLen`. -/

/-- Squared Euclidean distance between two points. -/
def distSq (p q : ℚ × ℚ) : ℚ := (p.1 - q.1) ^ 2 + (p.2 - q.2) ^ 2

/-- The `for inter in possibleIntersections` loop: `minSq` is the square of the
running `minDistance` (initially `maxDistance + geom.length`, afterwards the
distance of the best intersection so far), `best` the running
`closestIntersection` (initially `None`); an intersection strictly closer than
the running minimum replaces it, so the first of several equally close
intersections is kept. -/
def closestLoop (start : ℚ × ℚ) : List (ℚ × ℚ) → ℚ → Option (ℚ × ℚ) → Option (ℚ × ℚ)
  | [], _, best => best
  | inter :: rest, minSq, best =>
    if distSq start inter < minSq then closestLoop start rest (distSq start inter) (some inter)
    else closestLoop start rest minSq best

/-- The per-line body of the third `UpdateCursor` loop of
`extendLinesToIntersect`: `startPt`/`endPt` are the extended line's first and
last points, `extLen` its length, `inters` its intersection points with the
boundary (the source's `intersections.get(oid)`, `[]` when absent, in which
case the `continue` leaves the row unchanged).  When a closest intersection is
found the row is rewritten as the two-point segment from `startPt` to it (in
the order dictated by `direction`; for any other direction string the source
builds the polyline from an empty array). -/
def extendLineToClosest (maxDistance extLen : ℚ) (startPt endPt : ℚ × ℚ)
    (inters : List (ℚ × ℚ)) (direction : String) : List (ℚ × ℚ) :=
  if inters = [] then [startPt, endPt]
  else
    match closestLoop startPt inters ((maxDistance + extLen) ^ 2) none with
    | none => [startPt, endPt]
    | some inter =>
      if direction = "AZIMUTH" then [startPt, inter]
      else if direction = "OPPOSITE" then [inter, startPt]
      else []

theorem closestLoop_min (start : ℚ × ℚ) :
    ∀ (l : List (ℚ × ℚ)) (minSq : ℚ) (best : Option (ℚ × ℚ)) (p : ℚ × ℚ),
      (best = none ∨ ∃ b, best = some b ∧ distSq start b = minSq) →
      closestLoop start l minSq best = some p →
      distSq start p ≤ minSq ∧ (∀ q ∈ l, distSq start p ≤ distSq start q) ∧
        (best = some p ∨ (p ∈ l ∧ distSq start p < minSq)) := by
  intro l
  induction l with
  | nil =>
    intro minSq best p hinv hres
    simp only [closestLoop] at hres
    subst hres
    rcases hinv with h | ⟨b, hb, hbd⟩
    · exact absurd h (by simp)
    · obtain rfl : p = b := by injection hb
      exact ⟨le_of_eq hbd, by simp, Or.inl rfl⟩
  | cons i rest ih =>
    intro minSq best p hinv hres
    simp only [closestLoop] at hres
    by_cases hi : distSq start i < minSq
    · rw [if_pos hi] at hres
      obtain ⟨h1, h2, h3⟩ := ih (distSq start i) (some i) p
        (Or.inr ⟨i, rfl, rfl⟩) hres
      refine ⟨h1.trans hi.le, ?_, ?_⟩
      · intro q hq
        rcases List.mem_cons.mp hq with rfl | hq'
        · exact h1
        · exact h2 q hq'
      · rcases h3 with h | ⟨hmem, hlt⟩
        · obtain rfl : i = p := by injection h
          exact Or.inr ⟨List.mem_cons_self _ _, hi⟩
        · exact Or.inr ⟨List.mem_cons_of_mem _ hmem, hlt.trans hi⟩
    · rw [if_neg hi] at hres
      obtain ⟨h1, h2, h3⟩ := ih minSq best p hinv hres
      refine ⟨h1, ?_, ?_⟩
      · intro q hq
        rcases List.mem_cons.mp hq with rfl | hq'
        · exact h1.trans (not_lt.mp hi)
        · exact h2 q hq'
      · rcases h3 with h | ⟨hmem, hlt⟩
        · exact Or.inl h
        · exact Or.inr ⟨List.mem_cons_of_mem _ hmem, hlt⟩

theorem closestLoop_first (start : ℚ × ℚ) :
    ∀ (l : List (ℚ × ℚ)) (minSq : ℚ) (best : Option (ℚ × ℚ)) (p : ℚ × ℚ),
      closestLoop start l minSq best = some p →
      (best = some p ∧ ∀ q ∈ l, ¬ distSq start q < minSq) ∨
      (∃ l1 l2, l = l1 ++ p :: l2 ∧ distSq start p < minSq ∧
        ∀ q ∈ l1, distSq start p < distSq start q) := by
  intro l
  induction l with
  | nil =>
    intro minSq best p hres
    simp only [closestLoop] at hres
    exact Or.inl ⟨hres, by simp⟩
  | cons i rest ih =>
    intro minSq best p hres
    simp only [closestLoop] at hres
    by_cases hi : distSq start i < minSq
    · rw [if_pos hi] at hres
      rcases ih (distSq start i) (some i) p hres with ⟨heq, hall⟩ | ⟨l1, l2, hsplit, hlt, hfirst⟩
      · obtain rfl : i = p := by injection heq
        exact Or.inr ⟨[], rest, rfl, hi, by simp⟩
      · refine Or.inr ⟨i :: l1, l2, by rw [hsplit]; rfl, hlt.trans hi, ?_⟩
        intro q hq
        rcases List.mem_cons.mp hq with rfl | hq'
        · exact hlt
        · exact hfirst q hq'
    · rw [if_neg hi] at hres
      rcases ih minSq best p hres with ⟨heq, hall⟩ | ⟨l1, l2, hsplit, hlt, hfirst⟩
      · refine Or.inl ⟨heq, ?_⟩
        intro q hq
        rcases List.mem_cons.mp hq with rfl | hq'
        · exact hi
        · exact hall q hq'
      · refine Or.inr ⟨i :: l1, l2, by rw [hsplit]; rfl, hlt, ?_⟩
        intro q hq
        rcases List.mem_cons.mp hq with rfl | hq'
        · exact hlt.trans_le (not_lt.mp hi)
        · exact hfirst q hq'

/-- Claim C4 counterexample: with `maxDistance = 1`, a line of original length
`10` extended to `(0,0)-(11,0)` (`extLen = 11`), and a single boundary
intersection at `(5,0)`, the line IS replaced by the segment from its start to
`(5,0)` even though that intersection lies at distance `5 > maxDistance = 1`
from the original start point: the acceptance threshold in the source is
`maxDistance + geom.length` (the extended length), not `maxDistance`. -/
theorem extendLinesToIntersect_counterexample :
    extendLineToClosest 1 11 (0, 0) (11, 0) [(5, 0)] "AZIMUTH" = [(0, 0), (5, 0)] ∧
    ¬ distSq (0, 0) ((5 : ℚ), 0) ≤ 1 ^ 2 := by
  constructor
  · norm_num [extendLineToClosest, closestLoop, distSq]
  · norm_num [distSq]

/-- Claim C4 (amended): in the per-line selection loop of
`extendLinesToIntersect`, a line is left unmodified when no intersection lies
within `maxDistance + extendedLength` of the (extended) line's start point —
in particular whenever it has no intersections at all — and otherwise it is
replaced by the segment from its start to the intersection that is strictly
closest by Euclidean distance to the start, ties resolved by input order
(first found kept).  (Amendment relative to the claim: the acceptance radius
is `maxDistance + extended line length`, not `maxDistance`; since every
boundary intersection of the extended line lies on that line, i.e. within its
length, the radius in fact never filters anything out.) -/
theorem extendLinesToIntersect_spec :
    (∀ (maxDistance extLen : ℚ) (startPt endPt : ℚ × ℚ) (inters : List (ℚ × ℚ))
        (direction : String),
        closestLoop startPt inters ((maxDistance + extLen) ^ 2) none = none →
        extendLineToClosest maxDistance extLen startPt endPt inters direction
          = [startPt, endPt]) ∧
    (∀ (maxDistance extLen : ℚ) (startPt endPt : ℚ × ℚ) (inters : List (ℚ × ℚ))
        (p : ℚ × ℚ),
        closestLoop startPt inters ((maxDistance + extLen) ^ 2) none = some p →
        p ∈ inters ∧ distSq startPt p < (maxDistance + extLen) ^ 2 ∧
          (∀ q ∈ inters, distSq startPt p ≤ distSq startPt q) ∧
          (∃ l1 l2, inters = l1 ++ p :: l2 ∧
            ∀ q ∈ l1, distSq startPt p < distSq startPt q) ∧
          extendLineToClosest maxDistance extLen startPt endPt inters "AZIMUTH"
            = [startPt, p]) := by
  constructor
  · intro maxD extLen s e inters dir hnone
    by_cases hnil : inters = []
    · subst hnil
      simp [extendLineToClosest]
    · simp [extendLineToClosest, hnil, hnone]
  · intro maxD extLen s e inters p hsome
    have hnil : inters ≠ [] := by
      rintro rfl
      simp [closestLoop] at hsome
    obtain ⟨-, h2, h3⟩ := closestLoop_min s inters _ none p (Or.inl rfl) hsome
    rcases h3 with h | ⟨hmem, hlt⟩
    · exact absurd h (by simp)
    rcases closestLoop_first s inters _ none p hsome with ⟨habs, -⟩ | ⟨l1, l2, hsplit, -, hfirst⟩
    · exact absurd habs (by simp)
    refine ⟨hmem, hlt, h2, ⟨l1, l2, hsplit, hfirst⟩, ?_⟩
    simp [extendLineToClosest, hnil, hsome]

/-- Witness for `extendLinesToIntersect_spec`: a line whose only intersection
candidate is out of range is kept, and among candidates
`[(3,0), (0,1/2), (1/2,0)]` (the last two equally close) the first-found
closest one `(0,1/2)` wins. -/
theorem extendLinesToIntersect_spec_witness :
    extendLineToClosest 1 0 (0, 0) (1, 0) [(3, 0)] "AZIMUTH" = [(0, 0), (1, 0)] ∧
    ((0, 1/2) ∈ ([(3, 0), (0, 1/2), (1/2, 0)] : List (ℚ × ℚ)) ∧
      distSq (0, 0) ((0 : ℚ), 1/2) < ((1 : ℚ) + 0) ^ 2 ∧
      (∀ q ∈ ([(3, 0), (0, 1/2), (1/2, 0)] : List (ℚ × ℚ)),
        distSq (0, 0) ((0 : ℚ), 1/2) ≤ distSq (0, 0) q) ∧
      (∃ l1 l2, ([(3, 0), (0, 1/2), (1/2, 0)] : List (ℚ × ℚ))
          = l1 ++ ((0 : ℚ), (1 : ℚ)/2) :: l2 ∧
        ∀ q ∈ l1, distSq (0, 0) ((0 : ℚ), 1/2) < distSq (0, 0) q) ∧
      extendLineToClosest 1 0 (0, 0) (1, 0) [(3, 0), (0, 1/2), (1/2, 0)] "AZIMUTH"
        = [(0, 0), (0, 1/2)]) :=
  ⟨extendLinesToIntersect_spec.1 1 0 (0, 0) (1, 0) [(3, 0)] "AZIMUTH"
      (by norm_num [closestLoop, distSq]),
   extendLinesToIntersect_spec.2 1 0 (0, 0) (1, 0) [(3, 0), (0, 1/2), (1/2, 0)] (0, 1/2)
      (by norm_num [closestLoop, distSq])⟩

/-! ### `GeomTools.splitRectangle` (src/arcsupport.py lines 1960-2028)

The source reads the polygon ring's point array (for a rectangle: the four
corners plus the repeated closing point, `pts[1..5]`), builds the four edges
`edges[i] = (pts[i], pts[i+1])`, computes each edge's Euclidean length with
`GeomTools.dist` (a square root), marks as long the edges whose length lies in
`sorted(edgeLengths)[-2:]`, renumbers the edges so that edge 1 is a long edge
(shifting by one if it is not), and cuts along the segment joining the
midpoints of the renumbered edges 1 and 3.  Lengths here are modelled by
their squares: `x ↦ x²` is strictly monotone and injective on the
non-negative reals, so the ascending order of `sorted(...)`, the two largest
elements, and the membership test `length in longEdges` are all preserved. -/

/-- `GeomTools.midpoint` via `GeomTools.midpointFractional` with
`fraction = 0.5`: `(x1 + deltaX * fraction, y1 + deltaY * fraction)`. -/
def midpointQ (p q : ℚ × ℚ) : ℚ × ℚ :=
  (p.1 + (q.1 - p.1) * (1 / 2), p.2 + (q.2 - p.2) * (1 / 2))

/-- `GeomTools.splitRectangle` on the ring `p1 p2 p3 p4 p5` (with `p5` the
closing point, equal to `p1` for a closed ring).  If edge 1 (`p1-p2`) is a
long edge the edges are used as-is, and the two output rings are
`[pts1, pts6, pts7, pts4, pts1]` and `[pts6, pts2, pts3, pts7, pts6]` with
`pts6`/`pts7` the midpoints of edges 1 and 3; otherwise the edges are
renumbered up by one (`edg[i] = edges[i+1]`, `edg[4] = edges[1]`) and the same
construction is applied, cutting at the midpoints of original edges 2 and 4. -/
def splitRectangle (p1 p2 p3 p4 p5 : ℚ × ℚ) : List (ℚ × ℚ) × List (ℚ × ℚ) :=
  let l1 := distSq p1 p2
  let l2 := distSq p2 p3
  let l3 := distSq p3 p4
  let l4 := distSq p4 p5
  let longEdges := (List.insertionSort (fun u v => u ≤ v) [l1, l2, l3, l4]).drop 2
  if l1 ∈ longEdges then
    ([p1, midpointQ p1 p2, midpointQ p3 p4, p4, p1],
     [midpointQ p1 p2, p2, p3, midpointQ p3 p4, midpointQ p1 p2])
  else
    ([p2, midpointQ p2 p3, midpointQ p4 p5, p1, p2],
     [midpointQ p2 p3, p3, p4, midpointQ p4 p5, midpointQ p2 p3])

/-- Modelled from the spec: the area of a closed ring (shoelace formula),
used only to state the bisection area property of the 10×4 rectangle. -/
def shoelaceTerms : List (ℚ × ℚ) → ℚ
  | p :: q :: rest => (p.1 * q.2 - q.1 * p.2) + shoelaceTerms (q :: rest)
  | _ => 0

/-- Modelled from the spec: absolute shoelace area of a closed ring. -/
def ringArea (ps : List (ℚ × ℚ)) : ℚ := |shoelaceTerms ps| / 2

theorem sort4_top_pair (a b c d : ℚ) (hba : b < a) (hbc : b < c) (hda : d < a)
    (hdc : d < c) :
    (List.insertionSort (fun u v => u ≤ v) [a, b, c, d]).drop 2 = [a, c] ∨
    (List.insertionSort (fun u v => u ≤ v) [a, b, c, d]).drop 2 = [c, a] := by
  have e1 : List.orderedInsert (fun u v => u ≤ v) c [d] = [d, c] := by
    simp only [List.orderedInsert]
    rw [if_neg (not_le.mpr hdc)]
  have estep : List.insertionSort (fun u v => u ≤ v) [a, b, c, d]
      = List.orderedInsert (fun u v => u ≤ v) a
          (List.orderedInsert (fun u v => u ≤ v) b
            (List.orderedInsert (fun u v => u ≤ v) c [d])) := rfl
  rw [estep, e1]
  rcases le_or_lt b d with hbd | hdb
  · have e2 : List.orderedInsert (fun u v => u ≤ v) b [d, c] = [b, d, c] := by
      simp only [List.orderedInsert]
      rw [if_pos hbd]
    rw [e2]
    simp only [List.orderedInsert]
    rw [if_neg (not_le.mpr hba), if_neg (not_le.mpr hda)]
    rcases le_or_lt a c with hac | hca
    · rw [if_pos hac]
      exact Or.inl rfl
    · rw [if_neg (not_le.mpr hca)]
      exact Or.inr rfl
  · have e2 : List.orderedInsert (fun u v => u ≤ v) b [d, c] = [d, b, c] := by
      simp only [List.orderedInsert]
      rw [if_neg (not_le.mpr hdb), if_pos hbc.le]
    rw [e2]
    simp only [List.orderedInsert]
    rw [if_neg (not_le.mpr hda), if_neg (not_le.mpr hba)]
    rcases le_or_lt a c with hac | hca
    · rw [if_pos hac]
      exact Or.inl rfl
    · rw [if_neg (not_le.mpr hca)]
      exact Or.inr rfl

theorem sort4_bottom_pair (a b c d : ℚ) (hab : a < b) (had : a < d) (hcb : c < b)
    (hcd : c < d) :
    (List.insertionSort (fun u v => u ≤ v) [a, b, c, d]).drop 2 = [b, d] ∨
    (List.insertionSort (fun u v => u ≤ v) [a, b, c, d]).drop 2 = [d, b] := by
  have e1 : List.orderedInsert (fun u v => u ≤ v) c [d] = [c, d] := by
    simp only [List.orderedInsert]
    rw [if_pos hcd.le]
  have estep : List.insertionSort (fun u v => u ≤ v) [a, b, c, d]
      = List.orderedInsert (fun u v => u ≤ v) a
          (List.orderedInsert (fun u v => u ≤ v) b
            (List.orderedInsert (fun u v => u ≤ v) c [d])) := rfl
  rw [estep, e1]
  rcases le_or_lt b d with hbd | hdb
  · have e2 : List.orderedInsert (fun u v => u ≤ v) b [c, d] = [c, b, d] := by
      simp only [List.orderedInsert]
      rw [if_neg (not_le.mpr hcb), if_pos hbd]
    rw [e2]
    simp only [List.orderedInsert]
    rcases le_or_lt a c with hac | hca
    · rw [if_pos hac]
      exact Or.inl rfl
    · rw [if_neg (not_le.mpr hca), if_pos hab.le]
      exact Or.inl rfl
  · have e2 : List.orderedInsert (fun u v => u ≤ v) b [c, d] = [c, d, b] := by
      simp only [List.orderedInsert]
      rw [if_neg (not_le.mpr hcb), if_neg (not_le.mpr hdb)]
    rw [e2]
    simp only [List.orderedInsert]
    rcases le_or_lt a c with hac | hca
    · rw [if_pos hac]
      exact Or.inr rfl
    · rw [if_neg (not_le.mpr hca), if_pos had.le]
      exact Or.inr rfl

/-- Claim C5: for a 4-vertex closed ring, `splitRectangle` identifies the two
longest edges and cuts along the segment joining their midpoints, returning
two quadrilateral rings.  Part 1: when edges 1 and 3 are strictly longest, the
cut joins their midpoints (no renumbering).  Part 2: when edges 2 and 4 are
strictly longest, the renumbering path cuts at their midpoints.  Part 3: the
spec's concrete scenario — bisecting the 10×4 axis-aligned rectangle yields
two 5×4 rectangles whose areas (5·4 = 20 each) sum to the original area 40. -/
theorem splitRectangle_spec :
    (∀ p1 p2 p3 p4 p5 : ℚ × ℚ,
        distSq p2 p3 < distSq p1 p2 → distSq p2 p3 < distSq p3 p4 →
        distSq p4 p5 < distSq p1 p2 → distSq p4 p5 < distSq p3 p4 →
        splitRectangle p1 p2 p3 p4 p5
          = ([p1, midpointQ p1 p2, midpointQ p3 p4, p4, p1],
             [midpointQ p1 p2, p2, p3, midpointQ p3 p4, midpointQ p1 p2])) ∧
    (∀ p1 p2 p3 p4 p5 : ℚ × ℚ,
        distSq p1 p2 < distSq p2 p3 → distSq p1 p2 < distSq p4 p5 →
        distSq p3 p4 < distSq p2 p3 → distSq p3 p4 < distSq p4 p5 →
        splitRectangle p1 p2 p3 p4 p5
          = ([p2, midpointQ p2 p3, midpointQ p4 p5, p1, p2],
             [midpointQ p2 p3, p3, p4, midpointQ p4 p5, midpointQ p2 p3])) ∧
    (splitRectangle (0, 0) (10, 0) (10, 4) (0, 4) (0, 0)
        = ([(0, 0), (5, 0), (5, 4), (0, 4), (0, 0)],
           [(5, 0), (10, 0), (10, 4), (5, 4), (5, 0)]) ∧
     ringArea [((0 : ℚ), (0 : ℚ)), (5, 0), (5, 4), (0, 4), (0, 0)] = 20 ∧
     ringArea [((5 : ℚ), (0 : ℚ)), (10, 0), (10, 4), (5, 4), (5, 0)] = 20 ∧
     ringArea [((0 : ℚ), (0 : ℚ)), (10, 0), (10, 4), (0, 4), (0, 0)] = 40) := by
  have hA : ∀ p1 p2 p3 p4 p5 : ℚ × ℚ,
      distSq p2 p3 < distSq p1 p2 → distSq p2 p3 < distSq p3 p4 →
      distSq p4 p5 < distSq p1 p2 → distSq p4 p5 < distSq p3 p4 →
      splitRectangle p1 p2 p3 p4 p5
        = ([p1, midpointQ p1 p2, midpointQ p3 p4, p4, p1],
           [midpointQ p1 p2, p2, p3, midpointQ p3 p4, midpointQ p1 p2]) := by
    intro p1 p2 p3 p4 p5 h1 h2 h3 h4
    have hmem : distSq p1 p2 ∈ (List.insertionSort (fun u v => u ≤ v)
        [distSq p1 p2, distSq p2 p3, distSq p3 p4, distSq p4 p5]).drop 2 := by
      rcases sort4_top_pair (distSq p1 p2) (distSq p2 p3) (distSq p3 p4) (distSq p4 p5)
          h1 h2 h3 h4 with he | he <;> rw [he] <;> simp
    simp only [splitRectangle]
    rw [if_pos hmem]
  refine ⟨hA, ?_, ?_, ?_, ?_, ?_⟩
  · intro p1 p2 p3 p4 p5 h1 h2 h3 h4
    have hmem : distSq p1 p2 ∉ (List.insertionSort (fun u v => u ≤ v)
        [distSq p1 p2, distSq p2 p3, distSq p3 p4, distSq p4 p5]).drop 2 := by
      intro hcon
      rcases sort4_bottom_pair (distSq p1 p2) (distSq p2 p3) (distSq p3 p4) (distSq p4 p5)
          h1 h2 h3 h4 with he | he <;> rw [he] at hcon <;> simp at hcon <;>
        rcases hcon with h | h
      · exact absurd h (ne_of_lt h1)
      · exact absurd h (ne_of_lt h2)
      · exact absurd h (ne_of_lt h2)
      · exact absurd h (ne_of_lt h1)
    simp only [splitRectangle]
    rw [if_neg hmem]
  · have hconc := hA (0, 0) (10, 0) (10, 4) (0, 4) (0, 0)
      (by norm_num [distSq]) (by norm_num [distSq]) (by norm_num [distSq])
      (by norm_num [distSq])
    rw [hconc]
    norm_num [midpointQ]
  · norm_num [ringArea, shoelaceTerms]
  · norm_num [ringArea, shoelaceTerms]
  · norm_num [ringArea, shoelaceTerms]

/-- Witness for `splitRectangle_spec`: the 10×4 rectangle (long edges first
and third, no renumbering) and the 4×10 rectangle (long edges second and
fourth, renumbering path). -/
theorem splitRectangle_spec_witness :
    splitRectangle (0, 0) (10, 0) (10, 4) (0, 4) (0, 0)
      = ([(0, 0), (5, 0), (5, 4), (0, 4), (0, 0)],
         [(5, 0), (10, 0), (10, 4), (5, 4), (5, 0)]) ∧
    splitRectangle (0, 0) (4, 0) (4, 10) (0, 10) (0, 0)
      = ([(4, 0), (4, 5), (0, 5), (0, 0), (4, 0)],
         [(4, 5), (4, 10), (0, 10), (0, 5), (4, 5)]) := by
  constructor
  · rw [splitRectangle_spec.1 (0, 0) (10, 0) (10, 4) (0, 4) (0, 0)
      (by norm_num [distSq]) (by norm_num [distSq]) (by norm_num [distSq])
      (by norm_num [distSq])]
    norm_num [midpointQ]
  · rw [splitRectangle_spec.2.1 (0, 0) (4, 0) (4, 10) (0, 10) (0, 0)
      (by norm_num [distSq]) (by norm_num [distSq]) (by norm_num [distSq])
      (by norm_num [distSq])]
    norm_num [midpointQ]

/-! ### `GeomTools.polygonReduction` (src/arcsupport.py lines 2030-2082)

The recursion's geometric steps are vendor catalog operations
(`MinimumBoundingGeometry_management`, `Clip_analysis`, `Merge_management`,
`SelectLayerByLocation_management`, `DeleteFeatures_management`); we abstract
them as an oracle record and embed the control flow exactly: read the bounding
rectangle's width and length, accept when `length / width < reductionRatio`,
otherwise split the bounding rectangle with `splitRectangle` and recurse
unconditionally on the half kept by the clip/select/delete pipeline.  The
source has no recursion-depth or iteration cap, so the recursion is embedded
with an explicit depth budget: `none` means the recursion has not reached the
`ratio < reductionRatio` terminal case within that depth. -/

/-- Oracle for the vendor geometry operations used by `polygonReduction`:
`mbrRing` is the minimum bounding rectangle's ring (five points, closing point
included) of a polygon, `mbrWL` its `(MBG_Width, MBG_Length)` field pair, and
`clipKeep fc rects` the result of clipping `fc` against the two half
rectangles, merging, and keeping the half that contains a base point
(source steps 6-10). -/
structure GeomOps where
  mbrRing : List (ℚ × ℚ) → (ℚ × ℚ) × (ℚ × ℚ) × (ℚ × ℚ) × (ℚ × ℚ) × (ℚ × ℚ)
  mbrWL : List (ℚ × ℚ) → ℚ × ℚ
  clipKeep : List (ℚ × ℚ) → List (ℚ × ℚ) × List (ℚ × ℚ) → List (ℚ × ℚ)

/-- `GeomTools.polygonReduction`: accept the polygon unchanged when the
bounding-rectangle `ratio = length / width` is below `reductionRatio`,
otherwise split the bounding rectangle, keep the clipped half containing a
base point, and recurse on it.  The `ℕ` argument is a recursion-depth budget
(not present in the source, which recurses unboundedly): `none` reports that
the recursion would still be running after that many nested calls. -/
def polygonReduction (ops : GeomOps) : ℕ → List (ℚ × ℚ) → ℚ → Option (List (ℚ × ℚ))
  | 0, _, _ => none
  | depth + 1, fc, reductionRatio =>
    let width := (ops.mbrWL fc).1
    let length := (ops.mbrWL fc).2
    let ratio := length / width
    if ratio < reductionRatio then some fc
    else
      let r := ops.mbrRing fc
      let rects := splitRectangle r.1 r.2.1 r.2.2.1 r.2.2.2.1 r.2.2.2.2
      polygonReduction ops depth (ops.clipKeep fc rects) reductionRatio

/-- Modelled from the spec: the `(width, length)` pair of the minimum bounding
rectangle of an axis-aligned polygon, i.e. the extents of its axis-aligned
bounding box with `width ≤ length`, standing in for the vendor
`MinimumBoundingGeometry_management` / `MBG_Width` / `MBG_Length` fields
(which coincide with this for axis-aligned rectangles). -/
def aabbWL (ps : List (ℚ × ℚ)) : ℚ × ℚ :=
  let xs := ps.map Prod.fst
  let ys := ps.map Prod.snd
  let dx := xs.foldr max 0 - xs.foldr min 0
  let dy := ys.foldr max 0 - ys.foldr min 0
  (min dx dy, max dx dy)

/-- Oracle for the `polygonReduction` witnesses: the bounding rectangle is the
axis-aligned bounding box, its ring is a fixed square ring, and clipping keeps
the polygon unchanged (modelling a degenerate pipeline in which the ratio
never improves). -/
def idOps : GeomOps where
  mbrRing := fun _ => ((0, 0), (1, 0), (1, 1), (0, 1), (0, 0))
  mbrWL := aabbWL
  clipKeep := fun fc _ => fc

/-- The closed unit-square ring. -/
def unitSquare : List (ℚ × ℚ) := [(0, 0), (1, 0), (1, 1), (0, 1), (0, 0)]

/-- Claim C6: whenever the minimum-bounding-rectangle length-to-width ratio of
the input polygon is strictly below `reductionRatio`, `polygonReduction`
returns the polygon unchanged without splitting (the terminal `ACCEPT`
branch), for any vendor-geometry oracle and any positive recursion budget. -/
theorem polygonReduction_accept (ops : GeomOps) (depth : ℕ) (fc : List (ℚ × ℚ))
    (reductionRatio : ℚ)
    (h : (ops.mbrWL fc).2 / (ops.mbrWL fc).1 < reductionRatio) :
    polygonReduction ops (depth + 1) fc reductionRatio = some fc := by
  simp only [polygonReduction]
  rw [if_pos h]

/-- Witness for `polygonReduction_accept`: the spec's concrete scenario — a
1×1 square with `reductionRatio = 2` is returned unchanged (ratio `1 < 2`). -/
theorem polygonReduction_accept_witness :
    polygonReduction idOps 1 unitSquare 2 = some unitSquare :=
  polygonReduction_accept idOps 0 unitSquare 2 (by norm_num [idOps, aabbWL, unitSquare])

/-- Claim C7: the `polygonReduction` recursion carries no depth or iteration
cap of its own — whenever `ratio ≥ reductionRatio` it splits and recurses
unconditionally on the kept half (first conjunct, for every oracle, input and
budget), so its termination depends only on the ratio eventually dropping
below the threshold, which is not guaranteed: there are inputs (second
conjunct) on which the recursion is still running after every finite number
of nested calls. -/
theorem polygonReduction_no_cap :
    (∀ (ops : GeomOps) (depth : ℕ) (fc : List (ℚ × ℚ)) (reductionRatio : ℚ),
        ¬ (ops.mbrWL fc).2 / (ops.mbrWL fc).1 < reductionRatio →
        polygonReduction ops (depth + 1) fc reductionRatio
          = polygonReduction ops depth
              (ops.clipKeep fc
                (splitRectangle (ops.mbrRing fc).1 (ops.mbrRing fc).2.1
                  (ops.mbrRing fc).2.2.1 (ops.mbrRing fc).2.2.2.1
                  (ops.mbrRing fc).2.2.2.2))
              reductionRatio) ∧
    (∃ (ops : GeomOps) (fc : List (ℚ × ℚ)) (reductionRatio : ℚ),
        ∀ depth : ℕ, polygonReduction ops depth fc reductionRatio = none) := by
  constructor
  · intro ops depth fc reductionRatio h
    simp only [polygonReduction]
    rw [if_neg h]
  · refine ⟨⟨fun _ => ((0, 0), (1, 0), (1, 1), (0, 1), (0, 0)), fun _ => (1, 2),
      fun fc _ => fc⟩, unitSquare, 3/2, ?_⟩
    intro depth
    induction depth with
    | zero => rfl
    | succ n ih =>
      simp only [polygonReduction]
      rw [if_neg (by norm_num)]
      exact ih

/-- Witness for `polygonReduction_no_cap`: with the axis-aligned-box oracle, a
3×1 rectangle and `reductionRatio = 2`, the ratio `3 ≥ 2` triggers one
unconditional split-and-recurse step. -/
theorem polygonReduction_no_cap_witness :
    polygonReduction idOps 5 [((0 : ℚ), (0 : ℚ)), (3, 0), (3, 1), (0, 1), (0, 0)] 2
      = polygonReduction idOps 4
          (idOps.clipKeep [((0 : ℚ), (0 : ℚ)), (3, 0), (3, 1), (0, 1), (0, 0)]
            (splitRectangle (idOps.mbrRing [((0 : ℚ), (0 : ℚ)), (3, 0), (3, 1), (0, 1), (0, 0)]).1
              (idOps.mbrRing [((0 : ℚ), (0 : ℚ)), (3, 0), (3, 1), (0, 1), (0, 0)]).2.1
              (idOps.mbrRing [((0 : ℚ), (0 : ℚ)), (3, 0), (3, 1), (0, 1), (0, 0)]).2.2.1
              (idOps.mbrRing [((0 : ℚ), (0 : ℚ)), (3, 0), (3, 1), (0, 1), (0, 0)]).2.2.2.1
              (idOps.mbrRing [((0 : ℚ), (0 : ℚ)), (3, 0), (3, 1), (0, 1), (0, 0)]).2.2.2.2))
          2 :=
  polygonReduction_no_cap.1 idOps 4 [((0 : ℚ), (0 : ℚ)), (3, 0), (3, 1), (0, 1), (0, 0)] 2
    (by norm_num [idOps, aabbWL])

/-! ### `GeomTools.flipLineSegment`, `GeomTools.getAzimuth`,
`GeomTools.extendLineAlongAzimuth` (src/arcsupport.py lines 1381-1448)

These routines use `math.atan2`, `math.sin`, `math.cos`, so they are embedded
over `ℝ`.  A polyline is a point list; the source's `firstPoint`/`lastPoint`
accesses (total on `arcpy` geometries, which the source assumes non-empty) are
modelled with the default point `(0, 0)`. -/

/-- Python's float modulo `x % m` for a positive modulus: `x - m * ⌊x / m⌋`. -/
noncomputable def floatMod (x m : ℝ) : ℝ := x - m * ⌊x / m⌋

/-- The two-argument arctangent: `atan2 y x` is the angle of the point
`(x, y)` in `(-π, π]`, realised as `Complex.arg (x + y*I)`; models Python's
`math.atan2(y, x)` (which also has range `(-π, π]` up to signed zeros). -/
noncomputable def atan2 (y x : ℝ) : ℝ := Complex.arg ⟨x, y⟩

/-- `GeomTools.getAzimuth`: the azimuth of a polyline from first to last
point, `math.degrees(math.atan2(deltaX, deltaY)) % 360` — the argument order
`atan2(deltaX, deltaY)` is swapped relative to the standard `atan2(dy, dx)`,
measuring the bearing clockwise from north. -/
noncomputable def getAzimuth (pts : List (ℝ × ℝ)) : ℝ :=
  let p1 := pts.headD (0, 0)
  let p2 := pts.getLastD (0, 0)
  let deltaX := p2.1 - p1.1
  let deltaY := p2.2 - p1.2
  floatMod (atan2 deltaX deltaY * (180 / Real.pi)) 360

/-- `GeomTools.flipLineSegment`: reverses a two-point segment, returning the
failure sentinel (`False`, modelled `none`) when the line has more than two
points. -/
def flipLineSegment (pts : List (ℝ × ℝ)) : Option (List (ℝ × ℝ)) :=
  if 2 < pts.length then none
  else some [pts.getLastD (0, 0), pts.headD (0, 0)]

/-- `GeomTools.extendLineAlongAzimuth`: extends a line by `distance` from its
end point along its azimuth; with `direction = 'OPPOSITE'` the azimuth is
reversed and the line is first flipped with `flipLineSegment`, whose failure
sentinel is propagated (`if not geom: return False`).  The new end point is
`(lastPoint.X + distance*sin(radians(az)), lastPoint.Y + distance*cos(radians(az)))`. -/
noncomputable def extendLineAlongAzimuth (pts : List (ℝ × ℝ)) (distance : ℝ)
    (direction : String) : Option (List (ℝ × ℝ)) :=
  let azimuth := getAzimuth pts
  let flipped : Option (ℝ × List (ℝ × ℝ)) :=
    if direction = "OPPOSITE" then
      (flipLineSegment pts).map (fun g => (floatMod (azimuth + 180) 360, g))
    else some (azimuth, pts)
  match flipped with
  | none => none
  | some (az, geom) =>
    let azr := az * (Real.pi / 180)
    let deltaX := distance * Real.sin azr
    let deltaY := distance * Real.cos azr
    some [geom.headD (0, 0),
      ((geom.getLastD (0, 0)).1 + deltaX, (geom.getLastD (0, 0)).2 + deltaY)]

theorem floatMod_360_mem (x : ℝ) : floatMod x 360 ∈ Set.Ico (0 : ℝ) 360 := by
  have h : floatMod x 360 = 360 * Int.fract (x / 360) := by
    unfold floatMod Int.fract
    rw [mul_sub, mul_div_cancel₀ _ (by norm_num : (360 : ℝ) ≠ 0)]
  rw [h]
  constructor
  · exact mul_nonneg (by norm_num) (Int.fract_nonneg _)
  · have hlt := Int.fract_lt_one (x / 360)
    nlinarith [hlt]

/-- Claim C8: for every polyline with distinct first and last points,
`getAzimuth` returns exactly
`degrees(atan2(deltaX, deltaY)) mod 360` — the x/y-swapped arctangent,
i.e. the bearing clockwise from north — and the result is non-negative and
below 360; the closing conjuncts anchor the convention: a due-north segment
has azimuth `0` and a due-east segment azimuth `90`. -/
theorem getAzimuth_spec :
    (∀ pts : List (ℝ × ℝ), pts.headD (0, 0) ≠ pts.getLastD (0, 0) →
        getAzimuth pts
          = floatMod (atan2 ((pts.getLastD (0, 0)).1 - (pts.headD (0, 0)).1)
              ((pts.getLastD (0, 0)).2 - (pts.headD (0, 0)).2) * (180 / Real.pi)) 360 ∧
        getAzimuth pts ∈ Set.Ico (0 : ℝ) 360) ∧
    getAzimuth [(0, 0), (0, 1)] = 0 ∧ getAzimuth [(0, 0), (1, 0)] = 90 := by
  refine ⟨fun pts _ => ⟨rfl, floatMod_360_mem _⟩, ?_, ?_⟩
  · have harg : (⟨1 - 0, 0 - 0⟩ : ℂ) = 1 := by
      apply Complex.ext <;> simp
    calc getAzimuth [(0, 0), (0, 1)]
        = floatMod (Complex.arg ⟨1 - 0, 0 - 0⟩ * (180 / Real.pi)) 360 := rfl
      _ = 0 := by
          rw [harg, Complex.arg_one]
          simp [floatMod]
  · have harg : (⟨0 - 0, 1 - 0⟩ : ℂ) = Complex.I := by
      apply Complex.ext <;> simp
    have hdeg : Real.pi / 2 * (180 / Real.pi) = 90 := by
      field_simp
      ring
    calc getAzimuth [(0, 0), (1, 0)]
        = floatMod (Complex.arg ⟨0 - 0, 1 - 0⟩ * (180 / Real.pi)) 360 := rfl
      _ = floatMod 90 360 := by rw [harg, Complex.arg_I, hdeg]
      _ = 90 := by
          unfold floatMod
          rw [show ⌊(90 : ℝ) / 360⌋ = 0 by
            rw [Int.floor_eq_zero_iff]
            constructor <;> norm_num]
          norm_num

/-- Witness for `getAzimuth_spec`: the segment from `(0,0)` to `(3,4)`. -/
theorem getAzimuth_spec_witness :
    getAzimuth [((0 : ℝ), (0 : ℝ)), (3, 4)]
      = floatMod (atan2 (([((0 : ℝ), (0 : ℝ)), (3, 4)].getLastD (0, 0)).1
            - ([((0 : ℝ), (0 : ℝ)), (3, 4)].headD (0, 0)).1)
          (([((0 : ℝ), (0 : ℝ)), (3, 4)].getLastD (0, 0)).2
            - ([((0 : ℝ), (0 : ℝ)), (3, 4)].headD (0, 0)).2) * (180 / Real.pi)) 360 ∧
    getAzimuth [((0 : ℝ), (0 : ℝ)), (3, 4)] ∈ Set.Ico (0 : ℝ) 360 :=
  getAzimuth_spec.1 [((0 : ℝ), (0 : ℝ)), (3, 4)]
    (by simp [Prod.ext_iff])

/-- Claim C9: for every input polyline with more than two points, extending
with direction `'OPPOSITE'` returns the failure sentinel (`False`, modelled
`none`) rather than raising: `flipLineSegment` is only defined for simple
two-point segments and its sentinel is propagated by
`extendLineAlongAzimuth`, so callers must check the result. -/
theorem extendLineAlongAzimuth_opposite_fails (pts : List (ℝ × ℝ)) (distance : ℝ)
    (h : 2 < pts.length) :
    extendLineAlongAzimuth pts distance "OPPOSITE" = none := by
  simp [extendLineAlongAzimuth, flipLineSegment, h]

/-- Witness for `extendLineAlongAzimuth_opposite_fails`: a three-point
polyline. -/
theorem extendLineAlongAzimuth_opposite_fails_witness :
    extendLineAlongAzimuth [((0 : ℝ), (0 : ℝ)), (1, 1), (2, 0)] 5 "OPPOSITE" = none :=
  extendLineAlongAzimuth_opposite_fails [((0 : ℝ), (0 : ℝ)), (1, 1), (2, 0)] 5
    (by norm_num)
